import Mathlib

/-!
Shallow embedding of the processing-history and deduplication subsystem of
the mkvprocesser repository (src/mkvprocessor/history_manager.py,
log_manager.py, github_sync.py, utils/file_utils.py), together with
theorems settling the frozen claims about it.

Python dictionaries are embedded as association lists with unique keys
(`dinsert` replaces any previous binding of the key, as `d[k] = v` does).
File-system and network effects are made explicit: a file is an
`Option` of its parsed content (`none` = the file does not exist or cannot
be read), a write outcome is a `Bool` or `Option` parameter, and values
produced by the runtime (uuid4, utcnow, md5) are passed in as arguments.
-/

namespace MKV

/-- Lookup in an association list, first binding wins (Python dict lookup). -/
def alookup {κ α : Type} [DecidableEq κ] : List (κ × α) → κ → Option α
  | [], _ => none
  | (k, v) :: rest, key => if k = key then some v else alookup rest key

/-- Dictionary insertion `d[k] = v`: the new binding replaces any previous
binding of `k`, other keys are untouched. -/
def dinsert {κ α : Type} [DecidableEq κ] (k : κ) (v : α) (m : List (κ × α)) :
    List (κ × α) :=
  (k, v) :: m.filter (fun p => p.1 ≠ k)

/-- Number of bindings an association list holds for the key `k`. -/
def countKey {κ α : Type} [DecidableEq κ] (k : κ) (m : List (κ × α)) : Nat :=
  (m.filter (fun p => p.1 = k)).length

/-- One record of the JSONL history store (`history_manager.py`, module doc):
the fields `add_entry` always writes, plus the open-ended `**metadata` bag,
kept as an association list of extra fields (the repository's callers only
pass metadata keys distinct from the core fields). -/
structure Entry where
  id : String
  old_name : String
  new_name : String
  signature : String
  timestamp : String
  metadata : List (String × String)
deriving DecidableEq

/-- One physical line of a JSONL file, as seen by `json.loads`:
blank after stripping, malformed (raises `JSONDecodeError`), or a parsed
entry object. -/
inductive Line where
  | blank : Line
  | malformed : String → Line
  | entry : Entry → Line
deriving DecidableEq

/-- In-memory and on-disk state of `HistoryManager`:
`history_file` is the parsed content of `processed.jsonl` (`none` when the
file does not exist), `index_file` the parsed content of `index.json`
(`none` when missing or unreadable), and `by_signature` / `by_name` /
`loaded` are the instance attributes. -/
structure HistoryManager where
  history_file : Option (List Line)
  index_file : Option (List (String × Entry) × List (String × String))
  by_signature : List (String × Entry)
  by_name : List (String × String)
  loaded : Bool
deriving DecidableEq

/-- Processing of one JSONL line inside `HistoryManager.load` (lines 58-74):
skip blanks and malformed lines; for a parsed entry with non-empty
signature, index it by signature and by both non-empty names. -/
def loadLine (acc : List (String × Entry) × List (String × String))
    (l : Line) : List (String × Entry) × List (String × String) :=
  match l with
  | Line.blank => acc
  | Line.malformed _ => acc
  | Line.entry e =>
    if e.signature ≠ "" then
      let bs := dinsert e.signature e acc.1
      let bn := if e.old_name ≠ "" then dinsert e.old_name e.signature acc.2
                else acc.2
      let bn := if e.new_name ≠ "" then dinsert e.new_name e.signature bn
                else bn
      (bs, bn)
    else acc

/-- Indexes built from the JSONL file alone (step 1 of `load`). -/
def fromJsonl (lines : List Line) :
    List (String × Entry) × List (String × String) :=
  lines.foldl loadLine ([], [])

/-- Step 2 of `load` (lines 84-89): merge cached bindings in, but only for
keys not already present (the JSONL-built map is never overridden). -/
def mergeMissing {κ α : Type} [DecidableEq κ] (base idx : List (κ × α)) :
    List (κ × α) :=
  idx.foldl (fun acc p => if (alookup acc p.1).isSome then acc
                          else dinsert p.1 p.2 acc) base

/-- `HistoryManager.load` (lines 46-93): a no-op once `_loaded` is set;
otherwise rebuild both indexes from the JSONL file, merge the index cache
in for missing keys only, and set the flag. -/
def load (m : HistoryManager) : HistoryManager :=
  if m.loaded then m
  else
    let fj := fromJsonl (m.history_file.getD [])
    let merged :=
      match m.index_file with
      | none => fj
      | some idx => (mergeMissing fj.1 idx.1, mergeMissing fj.2 idx.2)
    { m with by_signature := merged.1, by_name := merged.2, loaded := true }

/-- `HistoryManager.add_entry` (lines 109-153). `eid` and `ts` stand for the
fresh `uuid.uuid4()` and `datetime.utcnow()` values; `writeOk` tells whether
the append to the JSONL file succeeds (an `IOError` there is caught and only
logged, lines 142-146). The in-memory indexes are updated unconditionally
and the entry is returned. -/
def add_entry (m : HistoryManager) (writeOk : Bool) (eid ts : String)
    (old_name new_name signature : String)
    (metadata : List (String × String)) : HistoryManager × Entry :=
  let m := load m
  let e : Entry := { id := eid, old_name := old_name, new_name := new_name,
                     signature := signature, timestamp := ts,
                     metadata := metadata }
  let hf := if writeOk then some (m.history_file.getD [] ++ [Line.entry e])
            else m.history_file
  let bs := dinsert signature e m.by_signature
  let bn := dinsert new_name signature (dinsert old_name signature m.by_name)
  ({ m with history_file := hf, by_signature := bs, by_name := bn }, e)

/-- `HistoryManager.has_signature` (lines 155-165); loads first, so the
state is returned alongside the answer. -/
def has_signature (m : HistoryManager) (signature : String) :
    HistoryManager × Bool :=
  let m := load m
  (m, (alookup m.by_signature signature).isSome)

/-- `HistoryManager.has_name` (lines 167-177). -/
def has_name (m : HistoryManager) (name : String) : HistoryManager × Bool :=
  let m := load m
  (m, (alookup m.by_name name).isSome)

/-- `HistoryManager.get_by_signature` (lines 179-189). -/
def get_by_signature (m : HistoryManager) (signature : String) :
    HistoryManager × Option Entry :=
  let m := load m
  (m, alookup m.by_signature signature)

/-- `HistoryManager.get_by_name` (lines 191-204): resolve the name to a
signature; a missing or falsy (empty) signature yields `None`. -/
def get_by_name (m : HistoryManager) (name : String) :
    HistoryManager × Option Entry :=
  let m := load m
  match alookup m.by_name name with
  | none => (m, none)
  | some sig => if sig ≠ "" then (m, alookup m.by_signature sig) else (m, none)

/-- `HistoryManager.save_index` (lines 95-107): best-effort write of both
in-memory indexes to the cache file; on failure the file is unchanged. -/
def save_index (m : HistoryManager) (writeOk : Bool) : HistoryManager :=
  if writeOk then { m with index_file := some (m.by_signature, m.by_name) }
  else m

/-- Python `str` whitespace (the default `strip` set). -/
def isPySpace (c : Char) : Bool :=
  c = ' ' ∨ c = '\t' ∨ c = '\n' ∨ c = '\r' ∨ c = '\x0b' ∨ c = '\x0c'

/-- Python `line.strip()`: drop leading and trailing whitespace. -/
def pyStrip (s : String) : String :=
  String.mk (((s.data.dropWhile isPySpace).reverse.dropWhile
    isPySpace).reverse)

/-- Accumulating worker for `pySplitPipe`. -/
def pySplitAux (sep : Char) : List Char → List Char → List String
  | [], acc => [String.mk acc.reverse]
  | c :: rest, acc =>
    if c = sep then String.mk acc.reverse :: pySplitAux sep rest []
    else pySplitAux sep rest (c :: acc)

/-- Python `s.split("|")`: always non-empty, keeps empty fields. -/
def pySplitPipe (s : String) : List String := pySplitAux '|' s.data []

/-- Pipe-split fields of one legacy line (`line.strip().split("|")`). -/
def lineParts (line : String) : List String := pySplitPipe (pyStrip line)

/-- A legacy line is processed only when it has at least two fields
(line 251). -/
def lineParseable (line : String) : Prop := 2 ≤ (lineParts line).length

instance (line : String) : Decidable (lineParseable line) :=
  inferInstanceAs (Decidable (2 ≤ (lineParts line).length))

/-- First field (`old_name`) of a legacy line. -/
def lineOld (line : String) : String := (lineParts line).getD 0 ""

/-- Second field (`new_name`) of a legacy line. -/
def lineNew (line : String) : String := (lineParts line).getD 1 ""

/-- Third field (`timestamp`) of a legacy line, empty when absent. -/
def lineTs (line : String) : String :=
  if 2 < (lineParts line).length then (lineParts line).getD 2 "" else ""

/-- Fourth field (`signature`) of a legacy line, empty when absent. -/
def lineSig (line : String) : String :=
  if 3 < (lineParts line).length then (lineParts line).getD 3 "" else ""

/-- One loop iteration of `HistoryManager.import_legacy_log`
(lines 249-276): dedup against the store by signature, or by old name when
the line carries no signature (substituting the synthetic signature
`"legacy_" + old_name`). `fr` is the `uuid4`/`utcnow` pair the `add_entry`
call would consume and `wr` its JSONL-append outcome; the returned flag
tells whether an entry was added. -/
def legacyStep (wr : Bool) (m : HistoryManager) (line : String)
    (fr : String × String) : HistoryManager × Bool :=
  if lineParseable line then
    if lineSig line ≠ "" then
      let q := has_signature m (lineSig line)
      if q.2 then (q.1, false)
      else ((add_entry q.1 wr fr.1 fr.2 (lineOld line) (lineNew line)
               (lineSig line)
               [("imported_from", "legacy_log"),
                ("original_timestamp", lineTs line)]).1, true)
    else
      let q := has_name m (lineOld line)
      if q.2 then (q.1, false)
      else ((add_entry q.1 wr fr.1 fr.2 (lineOld line) (lineNew line)
               ("legacy_" ++ lineOld line)
               [("imported_from", "legacy_log"),
                ("original_timestamp", lineTs line)]).1, true)
  else (m, false)

/-- Loop of `HistoryManager.import_legacy_log` over the file's lines;
`fresh` supplies one `uuid4`/`utcnow` pair per added entry. -/
def legacyAux (wr : Bool) :
    HistoryManager → List String → List (String × String) →
    HistoryManager × Nat
  | m, [], _ => (m, 0)
  | m, line :: rest, fresh =>
    let st := legacyStep wr m line (fresh.headD ("", ""))
    let r := legacyAux wr st.1 rest (if st.2 then fresh.tail else fresh)
    (r.1, r.2 + (if st.2 then 1 else 0))

/-- `HistoryManager.import_legacy_log` (lines 233-283): `legacy` is the
content of the legacy log file (`none` = missing, returning 0); the index
cache is saved only when at least one entry was imported. -/
def legacy_log_import (m : HistoryManager) (legacy : Option (List String))
    (fresh : List (String × String)) (wr saveOk : Bool) :
    HistoryManager × Nat :=
  match legacy with
  | none => (m, 0)
  | some lines =>
    let r := legacyAux wr m lines fresh
    if 0 < r.2 then (save_index r.1 saveOk, r.2) else r

/-- A signature is known to the store (`has_signature` on a loaded
manager). -/
def sigKnown (m : HistoryManager) (s : String) : Prop :=
  (alookup m.by_signature s).isSome = true

instance (m : HistoryManager) (s : String) : Decidable (sigKnown m s) :=
  inferInstanceAs (Decidable ((alookup m.by_signature s).isSome = true))

/-- A name is known to the store (`has_name` on a loaded manager). -/
def nameKnown (m : HistoryManager) (n : String) : Prop :=
  (alookup m.by_name n).isSome = true

instance (m : HistoryManager) (n : String) : Decidable (nameKnown m n) :=
  inferInstanceAs (Decidable ((alookup m.by_name n).isSome = true))

/-- The store already covers a legacy line: by its signature when the line
carries one, by its old name otherwise — exactly the dedup test
`import_legacy_log` performs. -/
def lineKnown (m : HistoryManager) (line : String) : Prop :=
  if lineSig line ≠ "" then sigKnown m (lineSig line)
  else nameKnown m (lineOld line)

/-- Collection loop of `merge_history_files` (lines 341-359): skip blank
and malformed lines, keep an entry only when its signature is non-empty and
not seen before, recording the signature as seen. -/
def collectEntries (seen : List String) : List Line → List Entry
  | [] => []
  | Line.blank :: rest => collectEntries seen rest
  | Line.malformed _ :: rest => collectEntries seen rest
  | Line.entry e :: rest =>
    if e.signature ≠ "" ∧ e.signature ∉ seen then
      e :: collectEntries (e.signature :: seen) rest
    else collectEntries seen rest

/-- Comparison used by `entries.sort(key=lambda x: x.get("timestamp", ""))`
(line 362): non-decreasing timestamp order. -/
def tsLE (a b : Entry) : Prop := a.timestamp ≤ b.timestamp

instance : DecidableRel tsLE := fun a b =>
  inferInstanceAs (Decidable (a.timestamp ≤ b.timestamp))

instance : IsTotal Entry tsLE := ⟨fun a b => le_total a.timestamp b.timestamp⟩

instance : IsTrans Entry tsLE := ⟨fun _ _ _ h h2 => le_trans h h2⟩

/-- `merge_history_files` (lines 326-373): `files` holds the parsed content
of each input path (`none` = missing or unreadable, skipped), `writeOk` the
outcome of writing the output file (on failure the function returns 0).
The first component is the content written to the output file; Python's
stable `list.sort` is embedded as a stable insertion sort. -/
def merge_history_files (files : List (Option (List Line)))
    (writeOk : Bool) : Option (List Entry) × Nat :=
  let stream := (files.filterMap id).flatten
  let entries := collectEntries [] stream
  let sorted := List.insertionSort tsLE entries
  if writeOk then (some sorted, sorted.length) else (none, 0)

/-- Entries of a line stream, in order, ignoring blank and malformed
lines. Specification-side helper used to state first-seen-wins. -/
def entriesOf (lines : List Line) : List Entry :=
  lines.filterMap (fun l => match l with
    | Line.entry e => some e
    | _ => none)

/-- First entry of `l` carrying signature `s`, if any. Specification-side
helper used to state first-seen-wins. -/
def firstWith (s : String) (l : List Entry) : Option Entry :=
  l.find? (fun e => e.signature = s)

/-- Shape of one object of a converted legacy log (`log_manager.py`,
lines 153-161). -/
structure ConvEntry where
  old_name : String
  new_name : String
  timestamp : String
  signature : String
  category : String
deriving DecidableEq

/-- Parsing of one legacy line in `convert_legacy_log_file` (lines 149-161):
fewer than two pipe-separated fields is unparseable; a missing timestamp
falls back to `utcnow` (passed in as `now`). -/
def parseLegacyLine (now : String) (line : String) : Option ConvEntry :=
  let parts := pySplitPipe (pyStrip line)
  if 2 ≤ parts.length then
    some { old_name := parts.getD 0 "", new_name := parts.getD 1 "",
           timestamp := if 2 < parts.length then parts.getD 2 "" else now,
           signature := if 3 < parts.length then parts.getD 3 "" else "",
           category := "video" }
  else none

/-- File-system slice touched by `convert_legacy_log_file`: the legacy log
(`none` = missing or unreadable, both returning `None` with no effect) and
the list of converted JSON files already written to the logs directory. -/
structure LegacyFS where
  legacy : Option (List String)
  outputs : List (List ConvEntry)
deriving DecidableEq

/-- `convert_legacy_log_file` (log_manager.py, lines 129-171): returns
`None` without touching anything when the legacy file is missing or yields
zero parseable lines; otherwise writes one new timestamped JSON file with
all parsed entries and deletes the legacy file. -/
def convert_legacy_log_file (fs : LegacyFS) (now : String) :
    LegacyFS × Option (List ConvEntry) :=
  match fs.legacy with
  | none => (fs, none)
  | some lines =>
    let entries := lines.filterMap (parseLegacyLine now)
    if entries.isEmpty then (fs, none)
    else ({ legacy := none, outputs := fs.outputs ++ [entries] },
          some entries)

/-- One stream object returned by `ffmpeg.probe` as read by
`get_file_signature`: its `codec_type` and the optional
`tags.language` (`none` = tag missing, defaulted to `"und"`). -/
structure StreamInfo where
  codec_type : String
  language : Option String
deriving DecidableEq

/-- Probe result as read by `get_file_signature`: the optional
`format.duration` (defaulted to `"0"`) and the optional stream list
(defaulted to `[]`). -/
structure ProbeData where
  duration : Option String
  streams : Option (List StreamInfo)
deriving DecidableEq

/-- Base signature computed by `get_file_signature` (utils/file_utils.py,
lines 87-95): subtitle streams are counted and their language tags
(defaulted to `"und"`) deduplicated, sorted and comma-joined, with the
literal `"none"` when there are no subtitle streams. Effects of the full
function are explicit in `get_file_signature` below: `size` is the
`os.path.getsize` outcome, `probe` the probe outcome (`none` = a failure
caught by the outer handler), `firstMb` the outcome of reading the first
1 MiB (`none` = `IOError`/`OSError`, swallowed by the inner handler), and
`md5hex` the pure hex digest function. -/
def sigBase (sz : Nat) (p : ProbeData) : String :=
  let subs := (p.streams.getD []).filter (fun s => s.codec_type = "subtitle")
  let sub_count := subs.length
  let sub_langs := List.insertionSort (fun a b : String => a ≤ b)
    ((subs.map (fun s => s.language.getD "und")).dedup)
  let sub_langs_str := if sub_langs.isEmpty then "none"
                       else String.intercalate "," sub_langs
  toString sz ++ "_" ++ p.duration.getD "0" ++ "_"
    ++ toString sub_count ++ "_" ++ sub_langs_str

/-- Outcome of the `ffmpeg.probe` call inside `get_file_signature`:
success; a failure raising one of the exception kinds the handler at
line 108 catches (`OSError`/`IOError`/`KeyError`/`ValueError`); or a
failure raising `ffmpeg.Error` (ffprobe exiting nonzero) — a direct
`Exception` subclass that handler does not catch. -/
inductive ProbeOutcome where
  | ok : ProbeData → ProbeOutcome
  | errCaught : ProbeOutcome
  | errFfmpeg : ProbeOutcome
deriving DecidableEq

/-- Result of one `get_file_signature` call: the function either returns a
value (`Optional[str]`) or lets an uncaught exception propagate to the
caller. -/
inductive SigResult where
  | returned : Option String → SigResult
  | raised : SigResult
deriving DecidableEq

/-- Continuation of `get_file_signature`: `os.path.getsize` first (line 82,
a failure there is caught before the probe runs), then the probe with its
three outcomes, then the optional best-effort hash suffix (`sigBase` is
line 95, the suffix is lines 98-105 whose inner handler swallows read
failures). -/
def get_file_signature (size : Option Nat) (probe : ProbeOutcome)
    (includeHash : Bool) (firstMb : Option (List Nat))
    (md5hex : List Nat → String) : SigResult :=
  match size with
  | none => SigResult.returned none
  | some sz =>
    match probe with
    | ProbeOutcome.errCaught => SigResult.returned none
    | ProbeOutcome.errFfmpeg => SigResult.raised
    | ProbeOutcome.ok p =>
      let base := sigBase sz p
      let sig := if includeHash then
                   match firstMb with
                   | some mb => base ++ "_" ++ (md5hex mb).take 8
                   | none => base
                 else base
      SigResult.returned (some sig)

/-- One remote log object as handled by `RemoteSyncManager`
(github_sync.py): `signature` and `category` are `Option`s because
`entry.get` distinguishes a missing key (`None`) from a present value. -/
structure RemoteEntry where
  old_name : String
  new_name : String
  timestamp : String
  signature : Option String
  category : Option String
  remote_path : Option String
deriving DecidableEq

/-- Python truthiness of an `Optional[str]`: `None` and `""` are falsy. -/
def falsyStr : Option String → Bool
  | none => true
  | some s => s = ""

/-- Mutable state of `RemoteSyncManager` (github_sync.py, lines 186-189):
the last-loaded remote list, the revision token, the pending queue, and the
remote `signature -> entry` map (whose keys are `Optional[str]`). -/
structure SyncState where
  log_entries : List RemoteEntry
  log_sha : Option String
  pending_entries : List RemoteEntry
  signatures : List (Option String × RemoteEntry)
deriving DecidableEq

/-- `RemoteSyncManager.has_signature` (lines 270-281): a falsy signature is
never present; otherwise a plain map lookup. -/
def SyncState.hasSig (s : SyncState) (signature : Option String) : Bool :=
  if falsyStr signature then false
  else (alookup s.signatures signature).isSome

/-- `RemoteSyncManager.record_entry` (lines 283-308). `fileExists` is the
`os.path.exists` outcome for the subtitle upload path and `uploadPath` the
remote path `_upload_file` returns (it returns the path even when the
upload fails). -/
def SyncState.record_entry (s : SyncState) (entry : RemoteEntry)
    (fileExists : Bool) (uploadPath : String) : SyncState :=
  let category := entry.category.getD "video"
  if category = "video" then
    if ¬ falsyStr entry.signature = true
        ∧ (alookup s.signatures entry.signature).isSome then s
    else { s with signatures := dinsert entry.signature entry s.signatures,
                  pending_entries := s.pending_entries ++ [entry] }
  else if category = "subtitle" then
    let e := if fileExists then { entry with remote_path := some uploadPath }
             else entry
    { s with pending_entries := s.pending_entries ++ [e] }
  else { s with pending_entries := s.pending_entries ++ [entry] }

/-- `RemoteSyncManager.flush` (lines 310-328). `putResult` is the outcome
of `client.put_content` (`some sha` = success, `none` = the caught
exception). The second component records the single conditional write
performed: the serialized list and the revision token supplied with it. -/
def SyncState.flush (s : SyncState) (putResult : Option String) :
    SyncState × Option (List RemoteEntry × Option String) :=
  if s.pending_entries.isEmpty then (s, none)
  else
    let merged := s.log_entries ++ s.pending_entries
    match putResult with
    | some newSha =>
      ({ s with log_entries := merged, log_sha := some newSha,
                pending_entries := [] }, some (merged, s.log_sha))
    | none => (s, some (merged, s.log_sha))

/-- Sample entry used by concrete witnesses. -/
def sampleEntry1 : Entry := ⟨"1", "x.mkv", "y.mkv", "s1", "t1", []⟩

/-- Sample cached index entry used by concrete witnesses. -/
def sampleEntryCached : Entry := ⟨"2", "a.mkv", "b.mkv", "cs", "t2", []⟩

/-- Sample unloaded manager whose JSONL file holds one valid entry between
a blank and a malformed line, with a non-trivial index cache. -/
def sampleManager : HistoryManager :=
  ⟨some [Line.entry sampleEntry1, Line.blank, Line.malformed "oops"],
   some ([("cs", sampleEntryCached)], [("cn", "cs")]), [], [], false⟩

/-! Helper lemmas about the dictionary model. -/

@[simp]
theorem alookup_dinsert_self {κ α : Type} [DecidableEq κ] (k : κ) (v : α)
    (m : List (κ × α)) : alookup (dinsert k v m) k = some v := by
  simp [alookup, dinsert]

theorem alookup_dinsert_ne {κ α : Type} [DecidableEq κ] (k s : κ) (v : α)
    (m : List (κ × α)) (h : k ≠ s) :
    alookup (dinsert k v m) s = alookup m s := by
  show (if k = s then some v else alookup (m.filter fun p => p.1 ≠ k) s)
        = alookup m s
  rw [if_neg h]
  induction m with
  | nil => rfl
  | cons p rest ih =>
    simp only [ne_eq, decide_not] at ih
    by_cases hp : p.1 = k
    · simpa [List.filter_cons, hp, alookup, h] using ih
    · simp [List.filter_cons, hp, alookup, ih]

theorem countKey_dinsert_self {κ α : Type} [DecidableEq κ] (k : κ) (v : α)
    (m : List (κ × α)) : countKey k (dinsert k v m) = 1 := by
  simp [countKey, dinsert, List.filter_filter]

theorem alookup_dinsert_isSome {κ α : Type} [DecidableEq κ] (k s : κ) (v : α)
    (m : List (κ × α)) (h : (alookup m s).isSome) :
    (alookup (dinsert k v m) s).isSome := by
  by_cases hk : k = s
  · subst hk; simp
  · rwa [alookup_dinsert_ne k s v m hk]

theorem alookup_mergeMissing {κ α : Type} [DecidableEq κ] (k : κ) (v : α)
    (base idx : List (κ × α)) (h : alookup base k = some v) :
    alookup (mergeMissing base idx) k = some v := by
  induction idx generalizing base with
  | nil => exact h
  | cons p rest ih =>
    show alookup (List.foldl _ (if (alookup base p.1).isSome then base
                                else dinsert p.1 p.2 base) rest) k = some v
    by_cases hp : (alookup base p.1).isSome
    · rw [if_pos hp]; exact ih base h
    · rw [if_neg hp]
      refine ih _ ?_
      have hne : p.1 ≠ k := by
        intro he
        rw [he, h] at hp
        simp at hp
      rw [alookup_dinsert_ne _ _ _ _ hne]
      exact h

/-! Helper lemmas about `load` and `add_entry`. -/

theorem load_of_loaded (m : HistoryManager) (h : m.loaded = true) :
    load m = m := by
  simp [load, h]

theorem load_loaded (m : HistoryManager) : (load m).loaded = true := by
  by_cases h : m.loaded <;> simp [load, h]

theorem load_history_file (m : HistoryManager) :
    (load m).history_file = m.history_file := by
  by_cases h : m.loaded <;> simp [load, h]

theorem add_entry_loaded (m : HistoryManager) (w : Bool) (eid ts o n sg : String)
    (md : List (String × String)) :
    (add_entry m w eid ts o n sg md).1.loaded = true := by
  simp [add_entry, load_loaded]

theorem add_entry_by_signature (m : HistoryManager) (w : Bool)
    (eid ts o n sg : String) (md : List (String × String)) :
    (add_entry m w eid ts o n sg md).1.by_signature
      = dinsert sg (add_entry m w eid ts o n sg md).2 (load m).by_signature := by
  simp [add_entry]

theorem add_entry_by_name (m : HistoryManager) (w : Bool)
    (eid ts o n sg : String) (md : List (String × String)) :
    (add_entry m w eid ts o n sg md).1.by_name
      = dinsert n sg (dinsert o sg (load m).by_name) := by
  simp [add_entry]

theorem alookup_double_dinsert (o n sg : String)
    (bn : List (String × String)) :
    alookup (dinsert n sg (dinsert o sg bn)) o = some sg := by
  by_cases hno : n = o
  · subst hno; simp
  · rw [alookup_dinsert_ne n o sg _ hno]; simp

/-- C1 counterexample: on an empty loaded store, two `add_entry` calls with
the same signature `"sig1"` leave the signature index holding the entry
stored by the second call, which differs from the first one (fresh id and
timestamp) — the second call is an overwrite, not a no-op. -/
theorem add_entry_second_call_overwrites_cex :
    (alookup (add_entry (add_entry (⟨none, none, [], [], true⟩ : HistoryManager)
        true "id1" "2024-01-01T00:00:00" "a.mkv" "b.mkv" "sig1" []).1
        true "id2" "2024-01-02T00:00:00" "a.mkv" "b.mkv" "sig1" []).1.by_signature
        "sig1"
      = some (add_entry (add_entry (⟨none, none, [], [], true⟩ : HistoryManager)
        true "id1" "2024-01-01T00:00:00" "a.mkv" "b.mkv" "sig1" []).1
        true "id2" "2024-01-02T00:00:00" "a.mkv" "b.mkv" "sig1" []).2)
    ∧ (add_entry (add_entry (⟨none, none, [], [], true⟩ : HistoryManager)
        true "id1" "2024-01-01T00:00:00" "a.mkv" "b.mkv" "sig1" []).1
        true "id2" "2024-01-02T00:00:00" "a.mkv" "b.mkv" "sig1" []).2
      ≠ (add_entry (⟨none, none, [], [], true⟩ : HistoryManager)
        true "id1" "2024-01-01T00:00:00" "a.mkv" "b.mkv" "sig1" []).2
    ∧ alookup (add_entry (add_entry (⟨none, none, [], [], true⟩ : HistoryManager)
        true "id1" "2024-01-01T00:00:00" "a.mkv" "b.mkv" "sig1" []).1
        true "id2" "2024-01-02T00:00:00" "a.mkv" "b.mkv" "sig1" []).1.by_signature
        "sig1"
      ≠ alookup (add_entry (⟨none, none, [], [], true⟩ : HistoryManager)
        true "id1" "2024-01-01T00:00:00" "a.mkv" "b.mkv" "sig1" []).1.by_signature
        "sig1" := by
  decide

/-- C1 (amended): after calling `add_entry` twice with the same signature
`sg`, the store contains exactly one entry for `sg`, but it is the entry
stored by the second call — signature collisions are resolved by overwrite
(last write wins), not by keeping the first entry. -/
theorem add_entry_same_signature_last_write_wins (m : HistoryManager)
    (w1 w2 : Bool) (id1 ts1 o1 n1 id2 ts2 o2 n2 sg : String)
    (md1 md2 : List (String × String)) :
    countKey sg (add_entry (add_entry m w1 id1 ts1 o1 n1 sg md1).1
        w2 id2 ts2 o2 n2 sg md2).1.by_signature = 1
    ∧ alookup (add_entry (add_entry m w1 id1 ts1 o1 n1 sg md1).1
        w2 id2 ts2 o2 n2 sg md2).1.by_signature sg
      = some (add_entry (add_entry m w1 id1 ts1 o1 n1 sg md1).1
        w2 id2 ts2 o2 n2 sg md2).2 := by
  refine ⟨?_, ?_⟩
  · rw [add_entry_by_signature]; exact countKey_dinsert_self _ _ _
  · rw [add_entry_by_signature]; simp

/-- C2: immediately after `add_entry(old_name, new_name, sig, ...)` with a
non-empty `sig`, `has_signature sig` is true and both `get_by_name
old_name` and `get_by_name new_name` return the entry just stored, whose
signature equals `sig` (read-your-writes on both indexes). -/
theorem add_entry_read_your_writes (m : HistoryManager) (w : Bool)
    (eid ts o n sg : String) (md : List (String × String)) (h : sg ≠ "") :
    (has_signature (add_entry m w eid ts o n sg md).1 sg).2 = true
    ∧ (get_by_name (add_entry m w eid ts o n sg md).1 o).2
      = some (add_entry m w eid ts o n sg md).2
    ∧ (get_by_name (add_entry m w eid ts o n sg md).1 n).2
      = some (add_entry m w eid ts o n sg md).2
    ∧ (add_entry m w eid ts o n sg md).2.signature = sg := by
  have hload := load_of_loaded _ (add_entry_loaded m w eid ts o n sg md)
  have hbs := add_entry_by_signature m w eid ts o n sg md
  have hbn := add_entry_by_name m w eid ts o n sg md
  refine ⟨?_, ?_, ?_, rfl⟩
  · simp [has_signature, hload, hbs]
  · have ho : alookup (add_entry m w eid ts o n sg md).1.by_name o = some sg := by
      rw [hbn]; exact alookup_double_dinsert o n sg _
    simp [get_by_name, hload, ho, h, hbs]
  · have hn : alookup (add_entry m w eid ts o n sg md).1.by_name n = some sg := by
      rw [hbn]; simp
    simp [get_by_name, hload, hn, h, hbs]

/-- C2 witness at a concrete store and entry. -/
theorem add_entry_read_your_writes_witness :
    ("sig1" : String) ≠ ""
    ∧ ((has_signature (add_entry (⟨none, none, [], [], true⟩ : HistoryManager)
          true "id1" "t1" "a.mkv" "b.mkv" "sig1" []).1 "sig1").2 = true
       ∧ (get_by_name (add_entry (⟨none, none, [], [], true⟩ : HistoryManager)
          true "id1" "t1" "a.mkv" "b.mkv" "sig1" []).1 "a.mkv").2
         = some (add_entry (⟨none, none, [], [], true⟩ : HistoryManager)
          true "id1" "t1" "a.mkv" "b.mkv" "sig1" []).2
       ∧ (get_by_name (add_entry (⟨none, none, [], [], true⟩ : HistoryManager)
          true "id1" "t1" "a.mkv" "b.mkv" "sig1" []).1 "b.mkv").2
         = some (add_entry (⟨none, none, [], [], true⟩ : HistoryManager)
          true "id1" "t1" "a.mkv" "b.mkv" "sig1" []).2
       ∧ (add_entry (⟨none, none, [], [], true⟩ : HistoryManager)
          true "id1" "t1" "a.mkv" "b.mkv" "sig1" []).2.signature = "sig1") :=
  ⟨by decide,
   add_entry_read_your_writes (⟨none, none, [], [], true⟩ : HistoryManager)
     true "id1" "t1" "a.mkv" "b.mkv" "sig1" [] (by decide)⟩

/-- C9: when the JSONL append fails (`writeOk = false`, the caught
`IOError` of lines 142-146), `add_entry` still updates both in-memory
indexes and returns the entry, while the history file is unchanged — so
`has_signature`/`get_by_signature` see an entry that was never persisted. -/
theorem add_entry_write_failure_diverges (m : HistoryManager)
    (eid ts o n sg : String) (md : List (String × String)) :
    (add_entry m false eid ts o n sg md).1.history_file = m.history_file
    ∧ alookup (add_entry m false eid ts o n sg md).1.by_signature sg
      = some (add_entry m false eid ts o n sg md).2
    ∧ alookup (add_entry m false eid ts o n sg md).1.by_name n = some sg
    ∧ alookup (add_entry m false eid ts o n sg md).1.by_name o = some sg
    ∧ (has_signature (add_entry m false eid ts o n sg md).1 sg).2 = true
    ∧ (get_by_signature (add_entry m false eid ts o n sg md).1 sg).2
      = some (add_entry m false eid ts o n sg md).2 := by
  have hload := load_of_loaded _ (add_entry_loaded m false eid ts o n sg md)
  have hbs := add_entry_by_signature m false eid ts o n sg md
  have hbn := add_entry_by_name m false eid ts o n sg md
  refine ⟨?_, ?_, ?_, ?_, ?_, ?_⟩
  · simp [add_entry, load_history_file]
  · rw [hbs]; simp
  · rw [hbn]; simp
  · rw [hbn]; exact alookup_double_dinsert o n sg _
  · simp [has_signature, hload, hbs]
  · simp [get_by_signature, hload, hbs]

/-- C10: a category-video entry with a falsy (`None` or empty) signature is
always queued — the remote dedup check is skipped — and its falsy signature
is inserted as a key of the remote signature map, while `has_signature` of
an empty (or missing) signature still returns false. -/
theorem record_entry_falsy_signature (s : SyncState) (e : RemoteEntry)
    (fe : Bool) (up : String) (hcat : e.category.getD "video" = "video")
    (hsig : falsyStr e.signature = true) :
    (s.record_entry e fe up).pending_entries = s.pending_entries ++ [e]
    ∧ alookup (s.record_entry e fe up).signatures e.signature = some e
    ∧ (s.record_entry e fe up).hasSig e.signature = false
    ∧ (s.record_entry e fe up).hasSig (some "") = false
    ∧ (s.record_entry e fe up).hasSig none = false := by
  cases hs : e.signature with
  | none =>
    refine ⟨?_, ?_, ?_, ?_, ?_⟩ <;>
      simp [SyncState.record_entry, SyncState.hasSig, hcat, hs, falsyStr]
  | some str =>
    have hstr : str = "" := by simpa [falsyStr, hs] using hsig
    subst hstr
    refine ⟨?_, ?_, ?_, ?_, ?_⟩ <;>
      simp [SyncState.record_entry, SyncState.hasSig, hcat, hs, falsyStr]

/-- C10 witness: a video entry whose signature key is present but empty. -/
theorem record_entry_falsy_signature_witness :
    ((⟨"a.mkv", "b.mkv", "t1", some "", some "video", none⟩ :
        RemoteEntry).category.getD "video" = "video")
    ∧ falsyStr (⟨"a.mkv", "b.mkv", "t1", some "", some "video", none⟩ :
        RemoteEntry).signature = true
    ∧ ((SyncState.record_entry ⟨[], none, [], []⟩
          ⟨"a.mkv", "b.mkv", "t1", some "", some "video", none⟩ false
          "up").pending_entries
        = ([] : List RemoteEntry)
            ++ [⟨"a.mkv", "b.mkv", "t1", some "", some "video", none⟩]
       ∧ alookup (SyncState.record_entry ⟨[], none, [], []⟩
          ⟨"a.mkv", "b.mkv", "t1", some "", some "video", none⟩ false
          "up").signatures
          (⟨"a.mkv", "b.mkv", "t1", some "", some "video", none⟩ :
            RemoteEntry).signature
        = some ⟨"a.mkv", "b.mkv", "t1", some "", some "video", none⟩
       ∧ (SyncState.record_entry ⟨[], none, [], []⟩
          ⟨"a.mkv", "b.mkv", "t1", some "", some "video", none⟩ false
          "up").hasSig
          (⟨"a.mkv", "b.mkv", "t1", some "", some "video", none⟩ :
            RemoteEntry).signature = false
       ∧ (SyncState.record_entry ⟨[], none, [], []⟩
          ⟨"a.mkv", "b.mkv", "t1", some "", some "video", none⟩ false
          "up").hasSig (some "") = false
       ∧ (SyncState.record_entry ⟨[], none, [], []⟩
          ⟨"a.mkv", "b.mkv", "t1", some "", some "video", none⟩ false
          "up").hasSig none = false) :=
  ⟨by decide, by decide,
   record_entry_falsy_signature ⟨[], none, [], []⟩
     ⟨"a.mkv", "b.mkv", "t1", some "", some "video", none⟩ false "up"
     (by decide) (by decide)⟩

/-- C6: `flush` is a no-op on an empty queue; on a non-empty queue it
issues one conditional write of the last-loaded remote list extended with
the queue, under the previously captured revision token; on success the
remote list, token and queue are updated together, and on failure the whole
state is unchanged with the entries still pending. -/
theorem flush_atomic (s : SyncState) (e : RemoteEntry)
    (q : List RemoteEntry) (sha : String) (put : Option String) :
    SyncState.flush { s with pending_entries := [] } put
      = ({ s with pending_entries := [] }, none)
    ∧ (SyncState.flush { s with pending_entries := e :: q } (some sha)).2
      = some (s.log_entries ++ e :: q, s.log_sha)
    ∧ (SyncState.flush { s with pending_entries := e :: q } (some sha)).1
      = { s with log_entries := s.log_entries ++ e :: q,
                 log_sha := some sha, pending_entries := [] }
    ∧ SyncState.flush { s with pending_entries := e :: q } none
      = ({ s with pending_entries := e :: q },
         some (s.log_entries ++ e :: q, s.log_sha)) := by
  refine ⟨?_, ?_, ?_, ?_⟩ <;> simp [SyncState.flush]

/-- C5 counterexample: two failures during the computation that do not
yield null. With `include_hash` requested, a file whose size and probe
succeed but whose first-1MiB read fails (the inner
`except (IOError, OSError): pass` of lines 104-105) yields the base
signature without the hash suffix — not null. And a probe failure raising
`ffmpeg.Error` (ffprobe nonzero exit, absent from the `except` tuple at
line 108) propagates out of the function instead of returning null.
Both contradict "returns null whenever any I/O or probe failure occurs
during its computation, including the optional first-1MiB hash read". -/
theorem get_file_signature_hash_failure_cex :
    get_file_signature (some 100) (ProbeOutcome.ok ⟨some "7.0", some []⟩)
      true none (fun _ => "0123456789abcdef")
      = SigResult.returned (some "100_7.0_0_none")
    ∧ get_file_signature (some 100) (ProbeOutcome.ok ⟨some "7.0", some []⟩)
      true none (fun _ => "0123456789abcdef") ≠ SigResult.returned none
    ∧ get_file_signature (some 100) ProbeOutcome.errFfmpeg true none
      (fun _ => "0123456789abcdef") = SigResult.raised
    ∧ get_file_signature (some 100) ProbeOutcome.errFfmpeg true none
      (fun _ => "0123456789abcdef") ≠ SigResult.returned none := by
  decide

/-- C5 (amended): `get_file_signature` returns null exactly when the size
lookup fails or the probe fails with one of the caught exception kinds
(`OSError`/`IOError`/`KeyError`/`ValueError`); a probe failure raising
`ffmpeg.Error` propagates out of the function (no value is returned at
all); a failure during the optional first-1MiB hash read is swallowed and
the base signature `"{size}_{duration}_{subCount}_{langs}"` is returned
without the hash suffix; when the hash read succeeds and `include_hash` is
requested, the first 8 characters of the hex MD5 digest are appended after
an underscore. -/
theorem get_file_signature_amended (sz : Nat) (p : ProbeData)
    (pr : ProbeOutcome) (mb : List Nat) (fm : Option (List Nat))
    (inc : Bool) (md5hex : List Nat → String) :
    get_file_signature none pr inc fm md5hex = SigResult.returned none
    ∧ get_file_signature (some sz) ProbeOutcome.errCaught inc fm md5hex
      = SigResult.returned none
    ∧ get_file_signature (some sz) ProbeOutcome.errFfmpeg inc fm md5hex
      = SigResult.raised
    ∧ get_file_signature (some sz) (ProbeOutcome.ok p) false fm md5hex
      = SigResult.returned (some (sigBase sz p))
    ∧ get_file_signature (some sz) (ProbeOutcome.ok p) true (some mb) md5hex
      = SigResult.returned (some (sigBase sz p ++ "_" ++ (md5hex mb).take 8))
    ∧ get_file_signature (some sz) (ProbeOutcome.ok p) true none md5hex
      = SigResult.returned (some (sigBase sz p)) := by
  refine ⟨?_, ?_, ?_, ?_, ?_, ?_⟩ <;> rfl

/-- C4: `convert_legacy_log_file` returns `None` with no effect when the
legacy file is missing or yields zero parseable lines; on success it writes
exactly one new file holding all parsed entries and deletes the legacy
file, so an immediately repeated conversion returns `None` and creates no
further converted file. -/
theorem convert_legacy_exactly_once (fs : LegacyFS) (now now2 : String) :
    (fs.legacy = none → convert_legacy_log_file fs now = (fs, none))
    ∧ (∀ lines, fs.legacy = some lines →
        lines.filterMap (parseLegacyLine now) = [] →
        convert_legacy_log_file fs now = (fs, none))
    ∧ (∀ lines e es, fs.legacy = some lines →
        lines.filterMap (parseLegacyLine now) = e :: es →
        convert_legacy_log_file fs now
          = (⟨none, fs.outputs ++ [e :: es]⟩, some (e :: es)))
    ∧ (∀ out, (convert_legacy_log_file fs now).2 = some out →
        convert_legacy_log_file (convert_legacy_log_file fs now).1 now2
          = ((convert_legacy_log_file fs now).1, none)) := by
  refine ⟨?_, ?_, ?_, ?_⟩
  · intro h; simp [convert_legacy_log_file, h]
  · intro lines h hemp; simp [convert_legacy_log_file, h, hemp]
  · intro lines e es h hcons; simp [convert_legacy_log_file, h, hcons]
  · intro out h
    cases hfs : fs.legacy with
    | none => simp [convert_legacy_log_file, hfs] at h
    | some lines =>
      by_cases hemp : (lines.filterMap (parseLegacyLine now)).isEmpty
      · simp [convert_legacy_log_file, hfs, hemp] at h
      · simp [convert_legacy_log_file, hfs, hemp]

theorem entriesOf_nil : entriesOf [] = [] := rfl

theorem entriesOf_blank (rest : List Line) :
    entriesOf (Line.blank :: rest) = entriesOf rest := by
  simp [entriesOf]

theorem entriesOf_malformed (s' : String) (rest : List Line) :
    entriesOf (Line.malformed s' :: rest) = entriesOf rest := by
  simp [entriesOf]

theorem entriesOf_entry (a : Entry) (rest : List Line) :
    entriesOf (Line.entry a :: rest) = a :: entriesOf rest := by
  simp [entriesOf]

theorem firstWith_nil (s : String) : firstWith s [] = none := rfl

theorem firstWith_cons (s : String) (a : Entry) (l : List Entry) :
    firstWith s (a :: l)
      = if a.signature = s then some a else firstWith s l := by
  by_cases h : a.signature = s
  · simp [firstWith, List.find?_cons, h]
  · simp [firstWith, List.find?_cons, h]

theorem mem_collectEntries (e : Entry) (lines : List Line) :
    ∀ seen : List String,
    e ∈ collectEntries seen lines ↔
      e.signature ≠ "" ∧ e.signature ∉ seen
        ∧ firstWith e.signature (entriesOf lines) = some e := by
  induction lines with
  | nil =>
    intro seen
    simp [collectEntries, entriesOf_nil, firstWith_nil]
  | cons l rest ih =>
    intro seen
    cases l with
    | blank => simpa [collectEntries, entriesOf_blank] using ih seen
    | malformed s' => simpa [collectEntries, entriesOf_malformed] using ih seen
    | entry a =>
      have hi : collectEntries seen (Line.entry a :: rest)
          = if a.signature ≠ "" ∧ a.signature ∉ seen then
              a :: collectEntries (a.signature :: seen) rest
            else collectEntries seen rest := rfl
      rw [hi, entriesOf_entry, firstWith_cons]
      by_cases hcond : a.signature ≠ "" ∧ a.signature ∉ seen
      · rw [if_pos hcond]
        constructor
        · intro hmem
          rcases List.mem_cons.mp hmem with rfl | hmem'
          · exact ⟨hcond.1, hcond.2, by rw [if_pos rfl]⟩
          · obtain ⟨h1, h2, h3⟩ := (ih (a.signature :: seen)).mp hmem'
            have hne : a.signature ≠ e.signature := by
              intro hq
              exact h2 (hq ▸ List.mem_cons_self _ _)
            exact ⟨h1, fun hs => h2 (List.mem_cons_of_mem _ hs),
                   by rw [if_neg hne]; exact h3⟩
        · rintro ⟨h1, h2, h3⟩
          by_cases hae : a.signature = e.signature
          · rw [if_pos hae] at h3
            rw [← Option.some.inj h3]
            exact List.mem_cons_self _ _
          · rw [if_neg hae] at h3
            refine List.mem_cons_of_mem _
              ((ih (a.signature :: seen)).mpr ⟨h1, ?_, h3⟩)
            intro hmem'
            rcases List.mem_cons.mp hmem' with he | he
            · exact hae he.symm
            · exact h2 he
      · rw [if_neg hcond]
        rw [ih seen]
        have hne : e.signature ≠ "" → e.signature ∉ seen →
            a.signature ≠ e.signature := by
          intro h1 h2 hq
          rcases not_and_or.mp hcond with hq1 | hq2
          · rw [not_not] at hq1
            exact h1 (hq ▸ hq1)
          · rw [not_not] at hq2
            exact h2 (hq ▸ hq2)
        constructor
        · rintro ⟨h1, h2, h3⟩
          exact ⟨h1, h2, by rw [if_neg (hne h1 h2)]; exact h3⟩
        · rintro ⟨h1, h2, h3⟩
          rw [if_neg (hne h1 h2)] at h3
          exact ⟨h1, h2, h3⟩

/-- C3: with a successful output write, `merge_history_files` writes the
entries sorted non-decreasingly by timestamp, returns their count, and an
entry is written iff its signature is non-empty and it is the first entry
carrying that signature in the concatenated stream of the listed inputs
(first-seen-wins; empty-signature entries and malformed lines are
discarded). -/
theorem merge_first_seen_wins_sorted (files : List (Option (List Line))) :
    ∃ out, (merge_history_files files true).1 = some out
      ∧ (merge_history_files files true).2 = out.length
      ∧ List.Sorted tsLE out
      ∧ ∀ e : Entry, e ∈ out ↔
          e.signature ≠ ""
          ∧ firstWith e.signature (entriesOf (files.filterMap id).flatten)
            = some e := by
  refine ⟨List.insertionSort tsLE
            (collectEntries [] (files.filterMap id).flatten),
          rfl, rfl, List.sorted_insertionSort tsLE _, ?_⟩
  intro e
  rw [List.mem_insertionSort]
  simpa using mem_collectEntries e (files.filterMap id).flatten []

/-! Lemmas towards C7: state evolution of the legacy import loop. -/

theorem legacyStep_unparseable (wr : Bool) (m : HistoryManager)
    (line : String) (fr : String × String) (hp : ¬ lineParseable line) :
    legacyStep wr m line fr = (m, false) := by
  simp [legacyStep, hp]

theorem legacyStep_loaded (wr : Bool) (m : HistoryManager) (line : String)
    (fr : String × String) (hp : lineParseable line) :
    (legacyStep wr m line fr).1.loaded = true := by
  by_cases hs : lineSig line = ""
  · by_cases hq : (alookup (load m).by_name (lineOld line)).isSome = true <;>
      simp [legacyStep, hp, hs, has_name, hq, load_loaded, add_entry_loaded]
  · by_cases hq : (alookup (load m).by_signature
        (lineSig line)).isSome = true <;>
      simp [legacyStep, hp, hs, has_signature, hq, load_loaded,
            add_entry_loaded]

theorem legacyStep_loaded_of_loaded (wr : Bool) (m : HistoryManager)
    (line : String) (fr : String × String) (hl : m.loaded = true) :
    (legacyStep wr m line fr).1.loaded = true := by
  by_cases hp : lineParseable line
  · exact legacyStep_loaded wr m line fr hp
  · rw [legacyStep_unparseable wr m line fr hp]; exact hl

theorem legacyStep_known (wr : Bool) (m : HistoryManager) (line : String)
    (fr : String × String) (hp : lineParseable line) :
    lineKnown (legacyStep wr m line fr).1 line := by
  by_cases hs : lineSig line = ""
  · by_cases hq : (has_name m (lineOld line)).2
    · have hq2 : (alookup (load m).by_name (lineOld line)).isSome = true := by
        simpa [has_name] using hq
      simp [legacyStep, hp, hs, hq, lineKnown, nameKnown, has_name, hq2]
    · simp [legacyStep, hp, hs, hq, lineKnown, nameKnown,
            add_entry_by_name, alookup_double_dinsert]
  · by_cases hq : (has_signature m (lineSig line)).2
    · have hq2 : (alookup (load m).by_signature
          (lineSig line)).isSome = true := by
        simpa [has_signature] using hq
      simp [legacyStep, hp, hs, hq, lineKnown, sigKnown, has_signature, hq2]
    · simp [legacyStep, hp, hs, hq, lineKnown, sigKnown,
            add_entry_by_signature]

theorem add_entry_sigKnown_mono (m : HistoryManager) (w : Bool)
    (eid ts o n sg s : String) (md : List (String × String))
    (hl : m.loaded = true) (h : sigKnown m s) :
    sigKnown (add_entry m w eid ts o n sg md).1 s := by
  unfold sigKnown at h ⊢
  rw [add_entry_by_signature, load_of_loaded m hl]
  exact alookup_dinsert_isSome _ _ _ _ h

theorem add_entry_nameKnown_mono (m : HistoryManager) (w : Bool)
    (eid ts o n sg s : String) (md : List (String × String))
    (hl : m.loaded = true) (h : nameKnown m s) :
    nameKnown (add_entry m w eid ts o n sg md).1 s := by
  unfold nameKnown at h ⊢
  rw [add_entry_by_name, load_of_loaded m hl]
  exact alookup_dinsert_isSome _ _ _ _ (alookup_dinsert_isSome _ _ _ _ h)

theorem legacyStep_sigKnown_mono (wr : Bool) (m : HistoryManager)
    (line : String) (fr : String × String) (s : String)
    (hl : m.loaded = true) (h : sigKnown m s) :
    sigKnown (legacyStep wr m line fr).1 s := by
  by_cases hp : lineParseable line
  · have hlm := load_of_loaded m hl
    by_cases hs : lineSig line = ""
    · by_cases hq : (alookup m.by_name (lineOld line)).isSome = true
      · simpa [legacyStep, hp, hs, has_name, hlm, hq] using h
      · simp [legacyStep, hp, hs, has_name, hlm, hq]
        exact add_entry_sigKnown_mono m wr fr.1 fr.2 (lineOld line)
          (lineNew line) ("legacy_" ++ lineOld line) s _ hl h
    · by_cases hq : (alookup m.by_signature (lineSig line)).isSome = true
      · simpa [legacyStep, hp, hs, has_signature, hlm, hq] using h
      · simp [legacyStep, hp, hs, has_signature, hlm, hq]
        exact add_entry_sigKnown_mono m wr fr.1 fr.2 (lineOld line)
          (lineNew line) (lineSig line) s _ hl h
  · rw [legacyStep_unparseable wr m line fr hp]; exact h

theorem legacyStep_nameKnown_mono (wr : Bool) (m : HistoryManager)
    (line : String) (fr : String × String) (s : String)
    (hl : m.loaded = true) (h : nameKnown m s) :
    nameKnown (legacyStep wr m line fr).1 s := by
  by_cases hp : lineParseable line
  · have hlm := load_of_loaded m hl
    by_cases hs : lineSig line = ""
    · by_cases hq : (alookup m.by_name (lineOld line)).isSome = true
      · simpa [legacyStep, hp, hs, has_name, hlm, hq] using h
      · simp [legacyStep, hp, hs, has_name, hlm, hq]
        exact add_entry_nameKnown_mono m wr fr.1 fr.2 (lineOld line)
          (lineNew line) ("legacy_" ++ lineOld line) s _ hl h
    · by_cases hq : (alookup m.by_signature (lineSig line)).isSome = true
      · simpa [legacyStep, hp, hs, has_signature, hlm, hq] using h
      · simp [legacyStep, hp, hs, has_signature, hlm, hq]
        exact add_entry_nameKnown_mono m wr fr.1 fr.2 (lineOld line)
          (lineNew line) (lineSig line) s _ hl h
  · rw [legacyStep_unparseable wr m line fr hp]; exact h

theorem legacyStep_lineKnown_mono (wr : Bool) (m : HistoryManager)
    (line l2 : String) (fr : String × String)
    (hl : m.loaded = true) (h : lineKnown m l2) :
    lineKnown (legacyStep wr m line fr).1 l2 := by
  unfold lineKnown at h ⊢
  by_cases h2 : lineSig l2 = ""
  · simp only [h2] at h ⊢
    simpa using legacyStep_nameKnown_mono wr m line fr (lineOld l2) hl
      (by simpa using h)
  · simp only [if_pos (by simpa using h2 : lineSig l2 ≠ "")] at h ⊢
    exact legacyStep_sigKnown_mono wr m line fr (lineSig l2) hl h

theorem legacyAux_loaded (wr : Bool) (lines : List String) :
    ∀ (m : HistoryManager) (fresh : List (String × String)),
    m.loaded = true → (legacyAux wr m lines fresh).1.loaded = true := by
  induction lines with
  | nil => intro m fresh h; simpa [legacyAux] using h
  | cons line rest ih =>
    intro m fresh h
    simp only [legacyAux]
    exact ih _ _ (legacyStep_loaded_of_loaded wr m line _ h)

theorem legacyAux_lineKnown_mono (wr : Bool) (lines : List String)
    (l2 : String) :
    ∀ (m : HistoryManager) (fresh : List (String × String)),
    m.loaded = true → lineKnown m l2 →
    lineKnown (legacyAux wr m lines fresh).1 l2 := by
  induction lines with
  | nil => intro m fresh _ h; simpa [legacyAux] using h
  | cons line rest ih =>
    intro m fresh hl h
    simp only [legacyAux]
    exact ih _ _ (legacyStep_loaded_of_loaded wr m line _ hl)
      (legacyStep_lineKnown_mono wr m line l2 _ hl h)

theorem legacyAux_known (wr : Bool) (lines : List String) :
    ∀ (m : HistoryManager) (fresh : List (String × String)) (l : String),
    l ∈ lines → lineParseable l →
    lineKnown (legacyAux wr m lines fresh).1 l := by
  induction lines with
  | nil => intro m fresh l hl; cases hl
  | cons line rest ih =>
    intro m fresh l hl hp
    simp only [legacyAux]
    rcases List.mem_cons.mp hl with rfl | hmem
    · exact legacyAux_lineKnown_mono wr rest l _ _
        (legacyStep_loaded wr m l _ hp) (legacyStep_known wr m l _ hp)
    · exact ih _ _ l hmem hp

theorem legacyAux_noop (wr : Bool) (lines : List String) :
    ∀ (m : HistoryManager) (fresh : List (String × String)),
    m.loaded = true →
    (∀ l ∈ lines, lineParseable l → lineKnown m l) →
    legacyAux wr m lines fresh = (m, 0) := by
  induction lines with
  | nil => intro m fresh _ _; rfl
  | cons line rest ih =>
    intro m fresh hl hk
    have hstep : legacyStep wr m line (fresh.headD ("", "")) = (m, false) := by
      by_cases hp : lineParseable line
      · have hkn := hk line (List.mem_cons_self _ _) hp
        unfold lineKnown at hkn
        by_cases hs : lineSig line = ""
        · simp only [hs] at hkn
          have hnm : has_name m (lineOld line) = (m, true) := by
            simp only [has_name, load_of_loaded m hl]
            simpa [nameKnown] using hkn
          simp [legacyStep, hp, hs, hnm]
        · simp only [if_pos (by simpa using hs : lineSig line ≠ "")] at hkn
          have hsg : has_signature m (lineSig line) = (m, true) := by
            simp only [has_signature, load_of_loaded m hl]
            simpa [sigKnown] using hkn
          simp [legacyStep, hp, hs, hsg]
      · exact legacyStep_unparseable wr m line _ hp
    simp only [legacyAux, hstep]
    have hrest := ih m fresh hl
      (fun l hm hp => hk l (List.mem_cons_of_mem _ hm) hp)
    simp [hrest]

theorem legacyAux_loaded_of_parseable (wr : Bool) (lines : List String) :
    ∀ (m : HistoryManager) (fresh : List (String × String)),
    (∃ l ∈ lines, lineParseable l) →
    (legacyAux wr m lines fresh).1.loaded = true := by
  induction lines with
  | nil => rintro m fresh ⟨l, hl, _⟩; cases hl
  | cons line rest ih =>
    rintro m fresh ⟨l, hl, hp⟩
    simp only [legacyAux]
    rcases List.mem_cons.mp hl with rfl | hmem
    · exact legacyAux_loaded wr rest _ _ (legacyStep_loaded wr m l _ hp)
    · exact ih _ _ ⟨l, hmem, hp⟩

theorem legacyAux_all_unparseable (wr : Bool) (lines : List String) :
    ∀ (m : HistoryManager) (fresh : List (String × String)),
    (∀ l ∈ lines, ¬ lineParseable l) →
    legacyAux wr m lines fresh = (m, 0) := by
  induction lines with
  | nil => intro m fresh _; rfl
  | cons line rest ih =>
    intro m fresh h
    have hstep := legacyStep_unparseable wr m line (fresh.headD ("", ""))
      (h line (List.mem_cons_self _ _))
    simp only [legacyAux, hstep]
    have hrest := ih m fresh (fun l hm => h l (List.mem_cons_of_mem _ hm))
    simp [hrest]

theorem save_index_loaded (m : HistoryManager) (b : Bool) :
    (save_index m b).loaded = m.loaded := by
  by_cases hb : b <;> simp [save_index, hb]

theorem save_index_lineKnown (m : HistoryManager) (b : Bool) (l : String)
    (h : lineKnown m l) : lineKnown (save_index m b) l := by
  unfold lineKnown sigKnown nameKnown at h ⊢
  by_cases hb : b <;> simpa [save_index, hb] using h

theorem legacy_log_import_of_noop (m1 : HistoryManager)
    (lines : List String) (fresh2 : List (String × String))
    (wr2 sv2 : Bool) (h : legacyAux wr2 m1 lines fresh2 = (m1, 0)) :
    legacy_log_import m1 (some lines) fresh2 wr2 sv2 = (m1, 0) := by
  simp [legacy_log_import, h]

/-- C7: `import_legacy_log` dedups against the store (by signature, or by
old name for signature-less lines, storing the synthetic signature
`"legacy_" + old_name`), so importing the same legacy log a second time
leaves the store unchanged and returns 0. -/
theorem legacy_import_idempotent (m : HistoryManager) (lines : List String)
    (fresh fresh2 : List (String × String)) (wr wr2 sv sv2 : Bool) :
    legacy_log_import (legacy_log_import m (some lines) fresh wr sv).1
      (some lines) fresh2 wr2 sv2
    = ((legacy_log_import m (some lines) fresh wr sv).1, 0) := by
  by_cases hex : ∃ l ∈ lines, lineParseable l
  · have haL : (legacyAux wr m lines fresh).1.loaded = true :=
      legacyAux_loaded_of_parseable wr lines m fresh hex
    have hm1L : (legacy_log_import m (some lines) fresh wr sv).1.loaded
        = true := by
      by_cases hc : 0 < (legacyAux wr m lines fresh).2 <;>
        simp [legacy_log_import, hc, save_index_loaded, haL]
    have hm1K : ∀ l ∈ lines, lineParseable l →
        lineKnown (legacy_log_import m (some lines) fresh wr sv).1 l := by
      intro l hm hp
      have hk := legacyAux_known wr lines m fresh l hm hp
      by_cases hc : 0 < (legacyAux wr m lines fresh).2 <;>
        simp [legacy_log_import, hc, save_index_lineKnown _ _ _ hk, hk]
    have h2 := legacyAux_noop wr2 lines
      (legacy_log_import m (some lines) fresh wr sv).1 fresh2 hm1L hm1K
    exact legacy_log_import_of_noop _ lines fresh2 wr2 sv2 h2
  · push_neg at hex
    have h1 := legacyAux_all_unparseable wr lines m fresh hex
    have hfi : legacy_log_import m (some lines) fresh wr sv = (m, 0) :=
      legacy_log_import_of_noop m lines fresh wr sv h1
    rw [hfi]
    exact legacy_log_import_of_noop m lines fresh2 wr2 sv2
      (legacyAux_all_unparseable wr2 lines m fresh2 hex)

/-- C8: `load` is idempotent — once loaded the manager is a fixed point of
`load`, so every later call in the process lifetime is a no-op — and on the
first call the JSONL-built indexes are the source of truth: the index cache
is merged in only for keys the JSONL file did not provide. -/
theorem load_idempotent_spec (m : HistoryManager) :
    (load m).loaded = true
    ∧ load (load m) = load m
    ∧ (m.loaded = true → load m = m)
    ∧ (m.loaded = false →
        (∀ s e, alookup (fromJsonl (m.history_file.getD [])).1 s = some e →
          alookup (load m).by_signature s = some e)
        ∧ (∀ n sg, alookup (fromJsonl (m.history_file.getD [])).2 n = some sg →
          alookup (load m).by_name n = some sg)) := by
  refine ⟨load_loaded m, load_of_loaded _ (load_loaded m),
          load_of_loaded m, ?_⟩
  intro hnl
  constructor
  · intro s e h
    cases hidx : m.index_file with
    | none => simpa [load, hnl, hidx] using h
    | some idx =>
      simp [load, hnl, hidx]
      exact alookup_mergeMissing _ _ _ _ h
  · intro n sg h
    cases hidx : m.index_file with
    | none => simpa [load, hnl, hidx] using h
    | some idx =>
      simp [load, hnl, hidx]
      exact alookup_mergeMissing _ _ _ _ h

/-- C8 witness: a concrete unloaded manager whose JSONL file provides one
entry; loading twice equals loading once and the JSONL entry survives the
index-cache merge. -/
theorem load_idempotent_spec_witness :
    sampleManager.loaded = false
    ∧ alookup (fromJsonl (sampleManager.history_file.getD [])).1 "s1"
        = some sampleEntry1
    ∧ load (load sampleManager) = load sampleManager
    ∧ alookup (load sampleManager).by_signature "s1" = some sampleEntry1 :=
  ⟨by decide, by decide,
   (load_idempotent_spec sampleManager).2.1,
   ((load_idempotent_spec sampleManager).2.2.2 (by decide)).1 "s1"
     sampleEntry1 (by decide)⟩

/-- C4 witness: a one-line legacy log is converted once; the immediately
repeated conversion returns `None` and leaves the outputs unchanged. -/
theorem convert_legacy_exactly_once_witness :
    ((convert_legacy_log_file ⟨some ["a|b"], []⟩ "T1").2
       = some [⟨"a", "b", "T1", "", "video"⟩])
    ∧ convert_legacy_log_file (convert_legacy_log_file
          ⟨some ["a|b"], []⟩ "T1").1 "T2"
      = ((convert_legacy_log_file ⟨some ["a|b"], []⟩ "T1").1, none) :=
  ⟨by decide,
   (convert_legacy_exactly_once ⟨some ["a|b"], []⟩ "T1" "T2").2.2.2
     [⟨"a", "b", "T1", "", "video"⟩] (by decide)⟩

end MKV
